import Mathlib

set_option autoImplicit false

/-
  Verification development for the EZMount repository (src/main.py and the
  preview build src/ui.py, src/logic.py).  The Python functions relevant to
  the specification are shallowly embedded below: strings are Lean Strings,
  Python dicts (which preserve insertion order and keep the position of a
  key on overwrite) are association lists with first-occurrence update, the
  Tk prompt dialogs and the process/filesystem side effects are explicit
  functional parameters (oracles), and the mutable instance attributes of
  EZMountApp are threaded as explicit state.
-/

namespace EZMount

/- ===== Python string primitives ===== -/

/-- Python str whitespace test, restricted to the ASCII whitespace
characters (the configuration texts and labels in the claims are ASCII). -/
def pyIsSpace (c : Char) : Bool :=
  c = ' ' || c = '\t' || c = '\n' || c = '\r' || c = '\x0b' || c = '\x0c'

/-- Strip leading and trailing whitespace from a character list. -/
def pyStripList (cs : List Char) : List Char :=
  ((cs.dropWhile pyIsSpace).reverse.dropWhile pyIsSpace).reverse

/-- Python str.strip() with no argument. -/
def pyStrip (s : String) : String := ⟨pyStripList s.data⟩

/-- Python s.startswith(t). -/
def pyStartsWith (s t : String) : Bool := t.data.isPrefixOf s.data

/-- Python s.endswith(t). -/
def pyEndsWith (s t : String) : Bool := t.data.isSuffixOf s.data

/-- Does t occur as a contiguous sublist of s? -/
def listContainsB (t : List Char) : List Char → Bool
  | [] => t.isEmpty
  | c :: rest => t.isPrefixOf (c :: rest) || listContainsB t rest

/-- Python membership test: t in s (substring containment). -/
def pyContains (s t : String) : Bool := listContainsB t.data s.data

/-- Python str.lower(), ASCII model. -/
def pyLower (s : String) : String := ⟨s.data.map Char.toLower⟩

/-- Python str.splitlines(): splits at \n, \r\n and \r boundaries and does
not produce a final empty line for a trailing newline.  (The exotic Unicode
line boundaries Python also recognises are elided; no claim involves them.) -/
def pySplitlinesAux : List Char → List Char → List String
  | [], [] => []
  | [], acc => [⟨acc.reverse⟩]
  | '\r' :: '\n' :: rest, acc => ⟨acc.reverse⟩ :: pySplitlinesAux rest []
  | '\r' :: rest, acc => ⟨acc.reverse⟩ :: pySplitlinesAux rest []
  | '\n' :: rest, acc => ⟨acc.reverse⟩ :: pySplitlinesAux rest []
  | c :: rest, acc => pySplitlinesAux rest (c :: acc)

/-- Python str.splitlines(). -/
def pySplitlines (s : String) : List String := pySplitlinesAux s.data []

/- ===== Ordered dictionaries as association lists =====
A Python dict preserves insertion order, and assigning to an existing key
keeps that key at its original position.  listSet replaces the value at the
first occurrence of the key, or appends when the key is absent. -/

/-- Assignment d[k] = v on an insertion-ordered dictionary. -/
def listSet {α : Type} : List (String × α) → String → α → List (String × α)
  | [], k, v => [(k, v)]
  | (k', v') :: rest, k, v =>
    if k' = k then (k, v) :: rest else (k', v') :: listSet rest k v

/-- Lookup d.get(k) on an insertion-ordered dictionary (the value at the
first occurrence of the key, none when absent). -/
def getSection {α : Type} : List (String × α) → String → Option α
  | [], _ => none
  | (k', v') :: rest, k => if k' = k then some v' else getSection rest k

/-- Update sections[cur][k] = v: mutate the inner dict stored under cur
(first occurrence), leaving everything else untouched.  When cur is absent
this is a no-op (in parse_conf_sections the current section always exists). -/
def setKV : List (String × List (String × String)) → String → String → String →
    List (String × List (String × String))
  | [], _, _, _ => []
  | (k', kvs) :: rest, cur, k, v =>
    if k' = cur then (k', listSet kvs k v) :: rest
    else (k', kvs) :: setKV rest cur k v

/- ===== ConfigParser: parse_conf_sections (src/main.py lines 26-42) ===== -/

/-- Classification of one raw configuration line, mirroring the order of the
checks in parse_conf_sections: strip; skip blank and comment lines; a line
bracketed as a header opens a section; otherwise a line with an equals sign
is a key/value line; anything else is skipped. -/
inductive LineKind where
  | skip : LineKind
  | header (name : String) : LineKind
  | kv (k v : String) : LineKind
  | other : LineKind
deriving DecidableEq, Repr

/-- The first split of line.split(<equals>, 1): everything before the first
equals sign, and everything after it. -/
def splitFirstEq (cs : List Char) : List Char × List Char :=
  (cs.takeWhile (· ≠ '='), (cs.dropWhile (· ≠ '=')).drop 1)

/-- Classify a raw line as parse_conf_sections does. -/
def lineKind (raw : String) : LineKind :=
  let line := pyStrip raw
  if line = "" || pyStartsWith line "#" then .skip
  else if pyStartsWith line "[" && pyEndsWith line "]" then
    .header (pyStrip ⟨(line.data.drop 1).dropLast⟩)
  else if line.data.contains '=' then
    .kv (pyStrip ⟨(splitFirstEq line.data).1⟩) (pyStrip ⟨(splitFirstEq line.data).2⟩)
  else .other

/-- The loop state of parse_conf_sections: the sections dict and the
current section name (None before any header). -/
structure ParseState where
  sections : List (String × List (String × String))
  current : Option String
deriving DecidableEq, Repr

/-- One iteration of the parse_conf_sections loop.  A header line resets
its section to the empty dict (keeping its dict position) and becomes
current; a key/value line updates the current section when one exists;
blank, comment and malformed lines leave the state unchanged. -/
def processLine (st : ParseState) (raw : String) : ParseState :=
  match lineKind raw with
  | .skip => st
  | .header n => ⟨listSet st.sections n [], some n⟩
  | .kv k v =>
    match st.current with
    | none => st
    | some cur => ⟨setKV st.sections cur k v, st.current⟩
  | .other => st

/-- Run the parser loop over a list of raw lines from the empty state. -/
def parseLines (lines : List String) : ParseState :=
  lines.foldl processLine ⟨[], none⟩

/-- parse_conf_sections (src/main.py lines 26-42). -/
def parse_conf_sections (confText : String) : List (String × List (String × String)) :=
  (parseLines (pySplitlines confText)).sections

/-- The header name opened by a raw line, when it is a header line. -/
def headerOpt (raw : String) : Option String :=
  match lineKind raw with
  | .header n => some n
  | _ => none

/-- The header names opened by a list of raw lines, in order. -/
def headersOfLines (lines : List String) : List String :=
  lines.filterMap headerOpt

/-- Run the parser loop over raw lines starting from the state created by a
header line for n: the sections dict holds exactly n (empty) and n is
current. -/
def parseTail (n : String) (lines : List String) : ParseState :=
  lines.foldl processLine ⟨[(n, [])], some n⟩

/- ===== MappingStore: auto_generate_mappings (src/main.py lines 320-347) ===== -/

/-- A mapping row as built by add_mapping_row.  The uuid identity is elided:
no claim mentions ids, and auto-generated rows are distinguished by position. -/
structure Mapping where
  remote : String
  label : String
  drive : String
  startup : Bool
deriving DecidableEq, Repr

/-- add_mapping_row (src/main.py lines 281-291) restricted to the mappings
list it appends to; auto-generation always uses the default startup=False. -/
def add_mapping_row (ms : List Mapping) (remote label drive : String) : List Mapping :=
  ms ++ [⟨remote, label, drive, false⟩]

/-- next_drive_ord (src/main.py lines 343-347): decrement the codepoint,
wrapping below the codepoint of A (65) to the codepoint of Z (90). -/
def next_drive_ord (ordVal : Nat) : Nat :=
  let v := ordVal - 1
  if v < 65 then 90 else v

/-- The allocator step inlined in the preview build (src/ui.py lines
185-187, inside _auto_generate_mappings): increment the codepoint, wrapping
above the codepoint of Z (90) back to the codepoint of A (65). -/
def ui_next_drive_ord (ordVal : Nat) : Nat :=
  let v := ordVal + 1
  if v > 90 then 65 else v

/-- The drive string built from a codepoint: chr(ord) followed by a colon. -/
def driveStr (ordVal : Nat) : String := ⟨[Char.ofNat ordVal, ':']⟩

/-- Python truthiness of an optional string: None and the empty string are
falsy. -/
def optTruthy : Option String → Bool
  | none => false
  | some s => s != ""

/-- Python a or b on optional strings: the left value when it is truthy,
otherwise the right value. -/
def pyOrOpt (a b : Option String) : Option String :=
  match a with
  | some s => if s = "" then b else some s
  | none => b

/-- The bucket list parsed from the comma-separated prompt answer:
split on commas, strip, drop empties. -/
def parseBuckets (inp : String) : List String :=
  ((inp.splitOn ",").map pyStrip).filter (· ≠ "")

/-- One iteration of the auto_generate_mappings section loop, threading the
mapping list and the drive codepoint.  askMore models the yes/no dialog
asking for additional buckets; bucketInput models the string prompt (none
when the user cancels). -/
def genStep (askMore : String → Bool) (bucketInput : String → Option String)
    (acc : List Mapping × Nat) (sec : String × List (String × String)) :
    List Mapping × Nat :=
  let typeVal := pyLower ((getSection sec.2 "type").getD "")
  let bucketVal := pyOrOpt (getSection sec.2 "bucket") (getSection sec.2 "bucket_name")
  if typeVal = "s3" || optTruthy bucketVal then
    let acc1 :=
      match bucketVal with
      | some b =>
        if b ≠ "" then
          (add_mapping_row acc.1 (sec.1 ++ ":" ++ b) (sec.1 ++ "-" ++ b) (driveStr acc.2),
           next_drive_ord acc.2)
        else acc
      | none => acc
    if askMore sec.1 then
      match bucketInput sec.1 with
      | some inp =>
        if inp ≠ "" then
          (parseBuckets inp).foldl
            (fun a b =>
              (add_mapping_row a.1 (sec.1 ++ ":" ++ b) (sec.1 ++ "-" ++ b) (driveStr a.2),
               next_drive_ord a.2))
            acc1
        else acc1
      | none => acc1
    else acc1
  else
    (add_mapping_row acc.1 (sec.1 ++ ":") sec.1 (driveStr acc.2), next_drive_ord acc.2)

/-- auto_generate_mappings (src/main.py lines 320-341).  ms0 is the mapping
list before the call; clear_mappings only empties it when it is nonempty
and the user confirms (confirmClear), but auto-generation proceeds in
either case.  The generation starts from the codepoint of X (88). -/
def auto_generate_mappings (ms0 : List Mapping) (confirmClear : Bool)
    (sections : List (String × List (String × String)))
    (askMore : String → Bool) (bucketInput : String → Option String) : List Mapping :=
  let ms := if ms0 = [] then [] else if confirmClear then [] else ms0
  if sections = [] then ms
  else (sections.foldl (genStep askMore bucketInput) (ms, 88)).1

/- ===== MountSupervisor: tracked mounts ===== -/

/-- One entry of self.active_mounts.  pid is the owning process handle
(None for detection-only entries); entries appended by
start_detached_mount carry no from_startup_log key, which reads back as
falsy, so that flag is modelled as false there. -/
structure TM where
  mapping : String
  pid : Option Nat
  startedAt : Nat
  detected : Bool
  fromStartupLog : Bool
deriving DecidableEq, Repr

/-- A mapping record as scan_for_external_mounts reads it (only remote and
drive matter to the scan; label and startup are carried for completeness). -/
abbrev MappingRec := Mapping

/-- A startup-log entry as scan_for_external_mounts reads it.  Absent JSON
keys read back as falsy, which for the three string fields coincides with
the empty string, so each field is a plain string. -/
structure StartupEntry where
  label : String
  remote : String
  drive : String
deriving DecidableEq, Repr

/-- The mapping text emitted by the first scan loop for one mapping record,
when its (stripped) drive is nonempty and live: stripped remote, arrow,
stripped drive.  none when the record is skipped. -/
def mapEmit (live : String → Bool) (m : MappingRec) : Option String :=
  let d := pyStrip m.drive
  if d = "" then none
  else if live d then some (pyStrip m.remote ++ " -> " ++ d)
  else none

/-- The mapping text emitted by the second scan loop for one startup-log
entry, when its drive is nonempty and live: the remote when nonempty,
otherwise the label, then arrow and drive. -/
def logEmit (live : String → Bool) (e : StartupEntry) : Option String :=
  if e.drive = "" then none
  else if live e.drive then
    some ((if e.remote ≠ "" then e.remote else e.label) ++ " -> " ++ e.drive)
  else none

/-- The body shared by both detection loops: when a mapping text is emitted,
append a detection-only entry unless one with the same mapping text is
already tracked, and record the text in detected_now. -/
def detectStep (now : Nat) (fromLog : Bool) (acc : List TM × List String) :
    Option String → List TM × List String
  | none => acc
  | some mt =>
    let tracked :=
      if acc.1.any (fun am => am.mapping == mt) then acc.1
      else acc.1 ++ [⟨mt, none, now, true, fromLog⟩]
    (tracked, acc.2 ++ [mt])

/-- Run one detection loop over the per-item emissions. -/
def detectFold (now : Nat) (fromLog : Bool) :
    List (Option String) → List TM × List String → List TM × List String
  | [], acc => acc
  | em :: rest, acc => detectFold now fromLog rest (detectStep now fromLog acc em)

/-- The detected_now list: the mapping texts of all live targets, from the
mapping records then the startup log.  It does not depend on the tracked
list (detected_now.append is unconditional in the source). -/
def detectedNow (maps : List MappingRec) (log : List StartupEntry)
    (live : String → Bool) : List String :=
  (maps.map (mapEmit live)).filterMap id ++ (log.map (logEmit live)).filterMap id

/-- scan_for_external_mounts (src/main.py lines 747-784): both detection
loops, then the removal pass, which drops exactly the detection-flagged
entries whose mapping text was not re-detected.  (The source removes them
one by one from a snapshot of the list; since the predicate depends only on
the entry value, that equals a filter.) -/
def scan_for_external_mounts (maps : List MappingRec) (log : List StartupEntry)
    (live : String → Bool) (now : Nat) (st : List TM) : List TM :=
  let a := detectFold now false (maps.map (mapEmit live)) (st, [])
  let b := detectFold now true (log.map (logEmit live)) a
  b.1.filter (fun am => !(am.detected && !(b.2.contains am.mapping)))

/- ===== MountSupervisor: start (src/main.py lines 461-484) ===== -/

/-- The argument vector built by start_detached_mount; the config path is
the loaded path, or the empty string when no config is loaded. -/
def startCmd (rclonePath : String) (confPath : Option String)
    (remote drive : String) : List String :=
  [rclonePath, "mount", remote, drive, "--config", confPath.getD "",
   "--vfs-cache-mode", "writes"]

/-- start_detached_mount: when an rclone path is resolved, spawn the
command (spawn models subprocess.Popen: the pid on success, a message on
failure); on success append one Running tracked entry keyed
remote arrow drive.  Returns the new tracked list and the command that was
handed to the spawner (none when no spawn was attempted). -/
def start_detached_mount (rclonePath : Option String) (confPath : Option String)
    (spawn : List String → Except String Nat) (now : Nat)
    (remote drive : String) (st : List TM) : List TM × Option (List String) :=
  match rclonePath with
  | none => (st, none)
  | some rp =>
    let cmd := startCmd rp confPath remote drive
    match spawn cmd with
    | .error _ => (st, some cmd)
    | .ok pid =>
      (st ++ [⟨remote ++ " -> " ++ drive, some pid, now, false, false⟩], some cmd)

/- ===== MountSupervisor: stop (src/main.py lines 494-546) ===== -/

/-- The outcome of an external side effect whose result the source ignores:
the call succeeded, reported failure, or raised (and was caught). -/
inductive StopOutcome where
  | ok : StopOutcome
  | failed : StopOutcome
  | raised : StopOutcome
deriving DecidableEq, Repr

/-- The match test of the unmount loop (src/main.py line 500): the entry
matches when its mapping text ends with arrow-space-drive, or merely
contains the drive anywhere as a substring. -/
def mountMatches (drive : String) (am : TM) : Bool :=
  pyEndsWith am.mapping ("-> " ++ drive) || pyContains am.mapping drive

/-- The log lines of the best-effort external unmount attempt; they depend
on the platform and the outcome, but the tracked list never does. -/
def extStopLog (isWindows : Bool) (drive : String) (eo : StopOutcome) : List String :=
  if isWindows then
    match eo with
    | .raised => ["Failed to taskkill rclone.exe"]
    | _ => ["Requested taskkill for rclone.exe (Windows)."]
  else
    match eo with
    | .raised => ["Ran umount " ++ drive]
    | _ => ["Ran fusermount -u " ++ drive]

/-- The log lines of terminating a process-owned entry; a raised and caught
termination error adds a line, the tracked list is unaffected either way. -/
def termStopLog (termOutcome : StopOutcome) (mapping : String) : List String :=
  match termOutcome with
  | .raised => ["Error stopping pid", "Stopped mount " ++ mapping]
  | _ => ["Stopped mount " ++ mapping]

/-- The action of unmount_single on the first matching entry.  A
process-owned entry is terminated (outcome ignored) and removed; a
detection-only entry is removed only when the caller confirmed the external
stop, in which case the platform unmount is attempted and its outcome
ignored; otherwise the function returns with the list unchanged. -/
def stopMatched (isWindows : Bool) (drive : String) (confirmExternal : Bool)
    (termOutcome extOutcome : StopOutcome) (am : TM) (rest : List TM) :
    List TM × List String :=
  if am.pid.isSome then (rest, termStopLog termOutcome am.mapping)
  else if confirmExternal then
    (rest, ("Attempting to unmount external mount: " ++ am.mapping) ::
           extStopLog isWindows drive extOutcome)
  else (am :: rest, [])

/-- The loop of unmount_single over the tracked list: stop at the first
matching entry.  Returns the new list and the log lines. -/
def unmountLoop (isWindows : Bool) (drive : String) (confirmExternal : Bool)
    (termOutcome extOutcome : StopOutcome) : List TM → List TM × List String
  | [] => ([], [])
  | am :: rest =>
    if mountMatches drive am then
      stopMatched isWindows drive confirmExternal termOutcome extOutcome am rest
    else
      (am :: (unmountLoop isWindows drive confirmExternal termOutcome extOutcome rest).1,
       (unmountLoop isWindows drive confirmExternal termOutcome extOutcome rest).2)

/-- unmount_single (src/main.py lines 494-546): an empty drive is rejected
up front, otherwise the loop above runs over the tracked list. -/
def unmount_single (isWindows : Bool) (drive : String) (confirmExternal : Bool)
    (termOutcome extOutcome : StopOutcome) (st : List TM) : List TM × List String :=
  if drive = "" then (st, [])
  else unmountLoop isWindows drive confirmExternal termOutcome extOutcome st

/- ===== StartupRegistrar: artifact names (src/main.py lines 618-639) ===== -/

/-- The fixed prefix of every startup artifact (src/main.py line 23). -/
def STARTUP_PREFIX : String := "EZMount_"

/-- Python isalnum, ASCII model (Unicode alphanumerics are elided; the
claims involve ASCII labels only). -/
def pyIsAlnumChar (c : Char) : Bool := c.isAlphanum

/-- The character filter of the sanitizer: keep alphanumerics, hyphen and
underscore, in order. -/
def sanitizeChars (label : String) : String :=
  ⟨label.data.filter (fun c => pyIsAlnumChar c || c = '-' || c = '_')⟩

/-- safe_label (src/main.py line 620): join the kept characters, strip,
and fall back to the literal label mapping when the result is empty. -/
def safeLabel (label : String) : String :=
  let s := pyStrip (sanitizeChars label)
  if s = "" then "mapping" else s

/-- The artifact file name created by add_selected_to_startup: the fixed
prefix, the safe label, and the platform extension. -/
def startupFileName (isWindows : Bool) (label : String) : String :=
  STARTUP_PREFIX ++ safeLabel label ++ (if isWindows then ".cmd" else ".desktop")

/-- Modelled from the claim wording (for comparison only): the name the
specification describes, whose sanitized label is exactly the kept
characters of the original label, with no fallback. -/
def claimStartupFileName (isWindows : Bool) (label : String) : String :=
  STARTUP_PREFIX ++ sanitizeChars label ++ (if isWindows then ".cmd" else ".desktop")

/- ===== Helper lemmas ===== -/

lemma dropWhile_eq_self_of {α : Type} (p : α → Bool) (l : List α)
    (h : ∀ c ∈ l, p c = false) : l.dropWhile p = l := by
  cases l with
  | nil => rfl
  | cons a t =>
    rw [List.dropWhile_cons, h a (List.mem_cons_self a t)]
    simp

lemma pyStripList_eq_self (cs : List Char) (h : ∀ c ∈ cs, pyIsSpace c = false) :
    pyStripList cs = cs := by
  unfold pyStripList
  rw [dropWhile_eq_self_of _ _ h, dropWhile_eq_self_of, List.reverse_reverse]
  intro c hc
  exact h c (List.mem_reverse.mp hc)

lemma sanitize_pred_no_space (c : Char)
    (h : (pyIsAlnumChar c || c = '-' || c = '_') = true) : pyIsSpace c = false := by
  cases hs : pyIsSpace c with
  | false => rfl
  | true =>
    exfalso
    simp only [pyIsSpace, Bool.or_eq_true, decide_eq_true_eq] at hs
    rcases hs with ((((h1 | h1) | h1) | h1) | h1) | h1 <;>
      (subst h1; revert h; decide)

lemma pyStrip_sanitizeChars (label : String) :
    pyStrip (sanitizeChars label) = sanitizeChars label := by
  show String.mk (pyStripList (sanitizeChars label).data) = sanitizeChars label
  have h : ∀ c ∈ (sanitizeChars label).data, pyIsSpace c = false := by
    intro c hc
    have hc' : c ∈ label.data.filter
        (fun c => pyIsAlnumChar c || c = '-' || c = '_') := hc
    exact sanitize_pred_no_space c (List.mem_filter.mp hc').2
  rw [pyStripList_eq_self _ h]

lemma unmountLoop_keeps_nonmatching (isW : Bool) (drive : String) (confirm : Bool)
    (tOut eOut : StopOutcome) (st : List TM) (e : TM) (he : e ∈ st)
    (hm : mountMatches drive e = false) :
    e ∈ (unmountLoop isW drive confirm tOut eOut st).1 := by
  induction st with
  | nil => cases he
  | cons a rest ih =>
    rcases List.mem_cons.mp he with rfl | hrest
    · simp [unmountLoop, hm]
    · by_cases ha : mountMatches drive a = true
      · simp only [unmountLoop, ha, if_true, stopMatched]
        by_cases hp : a.pid.isSome
        · simpa [hp] using hrest
        · by_cases hc : confirm
          · simpa [hp, hc] using hrest
          · simp only [hp, hc, Bool.false_eq_true, if_false]
            exact List.mem_cons_of_mem a hrest
      · simp only [unmountLoop, ha, if_false]
        exact List.mem_cons_of_mem a (ih hrest)

lemma unmountLoop_removes_first (isW : Bool) (drive : String) (confirm : Bool)
    (tOut eOut : StopOutcome) (pre : List TM) (e : TM) (post : List TM)
    (hpre : ∀ x ∈ pre, mountMatches drive x = false)
    (he : mountMatches drive e = true) :
    (unmountLoop isW drive confirm tOut eOut (pre ++ e :: post)).1 =
      if e.pid.isSome || confirm then pre ++ post else pre ++ e :: post := by
  induction pre with
  | nil =>
    simp only [List.nil_append, unmountLoop, he, if_true, stopMatched]
    by_cases hp : e.pid.isSome
    · simp [hp]
    · by_cases hc : confirm
      · simp [hp, hc]
      · simp [hp, hc]
  | cons a rest ih =>
    have ha := hpre a (List.mem_cons_self a rest)
    have ih' := ih (fun x hx => hpre x (List.mem_cons_of_mem a hx))
    simp only [List.cons_append, unmountLoop, ha, Bool.false_eq_true, if_false]
    rw [show rest.append (e :: post) = rest ++ e :: post from rfl, ih']
    by_cases hcond : e.pid.isSome = true ∨ confirm = true
    · have hb : (e.pid.isSome || confirm) = true := by
        rcases hcond with h1 | h1 <;> simp [h1]
      simp [hb]
    · have hb : (e.pid.isSome || confirm) = false := by
        push_neg at hcond
        simp [hcond.1, hcond.2]
      simp [hb]

/-- Some tracked entry in l carries the mapping text mt. -/
def hasMT (l : List TM) (mt : String) : Prop := ∃ e ∈ l, e.mapping = mt

lemma hasMT_any (l : List TM) (mt : String) :
    l.any (fun am => am.mapping == mt) = true ↔ hasMT l mt := by
  simp [List.any_eq_true, hasMT]

lemma detectFold_snd (now : Nat) (fl : Bool) (ems : List (Option String))
    (acc : List TM × List String) :
    (detectFold now fl ems acc).2 = acc.2 ++ ems.filterMap id := by
  induction ems generalizing acc with
  | nil => simp [detectFold]
  | cons em rest ih =>
    cases em with
    | none => simp [detectFold, detectStep, ih]
    | some mt => simp [detectFold, detectStep, ih]

lemma detectStep_fst_mem (now : Nat) (fl : Bool) (acc : List TM × List String)
    (em : Option String) (e : TM) (h : e ∈ acc.1) :
    e ∈ (detectStep now fl acc em).1 := by
  cases em with
  | none => exact h
  | some mt =>
    by_cases hany : acc.1.any (fun am => am.mapping == mt) = true
    · simpa [detectStep, hany] using h
    · simp [detectStep, hany, h]

lemma detectFold_fst_mem (now : Nat) (fl : Bool) (ems : List (Option String))
    (acc : List TM × List String) (e : TM) (h : e ∈ acc.1) :
    e ∈ (detectFold now fl ems acc).1 := by
  induction ems generalizing acc with
  | nil => simpa [detectFold] using h
  | cons em rest ih =>
    simp only [detectFold]
    exact ih _ (detectStep_fst_mem now fl acc em e h)

lemma detectFold_has_emitted (now : Nat) (fl : Bool) (ems : List (Option String))
    (acc : List TM × List String) (mt : String) (h : mt ∈ ems.filterMap id) :
    hasMT (detectFold now fl ems acc).1 mt := by
  induction ems generalizing acc with
  | nil => simp at h
  | cons em rest ih =>
    cases em with
    | none =>
      simp only [List.filterMap_cons, id] at h
      simp only [detectFold]
      exact ih _ h
    | some mt0 =>
      simp only [List.filterMap_cons, id, List.mem_cons] at h
      simp only [detectFold]
      rcases h with rfl | hrest
      · have hstep : hasMT (detectStep now fl acc (some mt)).1 mt := by
          by_cases hany : acc.1.any (fun am => am.mapping == mt) = true
          · have := (hasMT_any acc.1 mt).mp hany
            obtain ⟨e, he, hm⟩ := this
            exact ⟨e, by simpa [detectStep, hany] using he, hm⟩
          · refine ⟨⟨mt, none, now, true, fl⟩, ?_, rfl⟩
            simp [detectStep, hany]
        obtain ⟨e, he, hm⟩ := hstep
        exact ⟨e, detectFold_fst_mem now fl rest _ e he, hm⟩
      · exact ih _ hrest

lemma detectFold_fst_id (now : Nat) (fl : Bool) (ems : List (Option String))
    (acc : List TM × List String)
    (h : ∀ mt ∈ ems.filterMap id, acc.1.any (fun am => am.mapping == mt) = true) :
    (detectFold now fl ems acc).1 = acc.1 := by
  induction ems generalizing acc with
  | nil => simp [detectFold]
  | cons em rest ih =>
    cases em with
    | none =>
      simp only [detectFold]
      exact ih _ (fun mt hm => h mt (by simpa [List.filterMap_cons, id] using hm))
    | some mt0 =>
      have h0 := h mt0 (by simp [List.filterMap_cons])
      have hstep : detectStep now fl acc (some mt0) = (acc.1, acc.2 ++ [mt0]) := by
        simp [detectStep, h0]
      simp only [detectFold, hstep]
      exact ih (acc.1, acc.2 ++ [mt0])
        (fun mt hm => h mt (by simp [List.filterMap_cons, id, hm]))

lemma scanFolds_snd (maps : List MappingRec) (log : List StartupEntry)
    (live : String → Bool) (now : Nat) (st : List TM) :
    (detectFold now true (log.map (logEmit live))
      (detectFold now false (maps.map (mapEmit live)) (st, []))).2 =
      detectedNow maps log live := by
  rw [detectFold_snd, detectFold_snd]
  simp [detectedNow]

lemma scan_unfold (maps : List MappingRec) (log : List StartupEntry)
    (live : String → Bool) (now : Nat) (st : List TM) :
    scan_for_external_mounts maps log live now st =
      (detectFold now true (log.map (logEmit live))
        (detectFold now false (maps.map (mapEmit live)) (st, []))).1.filter
        (fun am => !(am.detected && !((detectedNow maps log live).contains am.mapping))) := by
  simp only [scan_for_external_mounts, scanFolds_snd]

lemma contains_of_mem (l : List String) (a : String) (h : a ∈ l) :
    l.contains a = true := by
  simpa using h

lemma scan_has_detectedNow (maps : List MappingRec) (log : List StartupEntry)
    (live : String → Bool) (now : Nat) (st : List TM) (mt : String)
    (hmt : mt ∈ detectedNow maps log live) :
    hasMT (scan_for_external_mounts maps log live now st) mt := by
  have hb : hasMT (detectFold now true (log.map (logEmit live))
      (detectFold now false (maps.map (mapEmit live)) (st, []))).1 mt := by
    rcases List.mem_append.mp hmt with hmap | hlog
    · obtain ⟨e, he, hm⟩ := detectFold_has_emitted now false (maps.map (mapEmit live))
        (st, []) mt hmap
      exact ⟨e, detectFold_fst_mem now true _ _ e he, hm⟩
    · exact detectFold_has_emitted now true (log.map (logEmit live)) _ mt hlog
  obtain ⟨e, he, hm⟩ := hb
  refine ⟨e, ?_, hm⟩
  rw [scan_unfold]
  refine List.mem_filter.mpr ⟨he, ?_⟩
  have hc : (detectedNow maps log live).contains e.mapping = true := by
    rw [hm]; exact contains_of_mem _ _ hmt
  rw [hc]
  simp

lemma scan_detected_in_dnow (maps : List MappingRec) (log : List StartupEntry)
    (live : String → Bool) (now : Nat) (st : List TM) (e : TM)
    (he : e ∈ scan_for_external_mounts maps log live now st)
    (hd : e.detected = true) : e.mapping ∈ detectedNow maps log live := by
  rw [scan_unfold] at he
  have hp := (List.mem_filter.mp he).2
  simp only [hd, Bool.true_and, Bool.not_not] at hp
  simpa using hp

lemma keys_setKV (s : List (String × List (String × String))) (cur k v : String) :
    (setKV s cur k v).map Prod.fst = s.map Prod.fst := by
  induction s with
  | nil => rfl
  | cons p rest ih =>
    obtain ⟨k', kvs⟩ := p
    unfold setKV
    by_cases h : k' = cur
    · simp [h]
    · simp [h, ih]

lemma keys_listSet_of_not_mem {α : Type} (s : List (String × α)) (n : String) (v : α)
    (h : n ∉ s.map Prod.fst) :
    (listSet s n v).map Prod.fst = s.map Prod.fst ++ [n] := by
  induction s with
  | nil => rfl
  | cons p rest ih =>
    obtain ⟨k', v'⟩ := p
    have hk : k' ≠ n := by
      intro e
      exact h (by simp [e])
    unfold listSet
    have hrest : n ∉ rest.map Prod.fst := fun hm => h (by simp [hm])
    simp [hk, ih hrest]

lemma processLine_of_header (st : ParseState) (raw n : String)
    (h : headerOpt raw = some n) :
    processLine st raw = ⟨listSet st.sections n [], some n⟩ := by
  unfold processLine
  unfold headerOpt at h
  cases hk : lineKind raw with
  | skip => rw [hk] at h; exact absurd h (by simp)
  | other => rw [hk] at h; exact absurd h (by simp)
  | kv k v => rw [hk] at h; exact absurd h (by simp)
  | header m =>
    rw [hk] at h
    have hm : m = n := by simpa using h
    subst hm
    rfl

lemma processLine_keys_of_nonheader (st : ParseState) (raw : String)
    (h : headerOpt raw = none) :
    (processLine st raw).sections.map Prod.fst = st.sections.map Prod.fst := by
  unfold processLine
  unfold headerOpt at h
  cases hk : lineKind raw with
  | header m => rw [hk] at h; exact absurd h (by simp)
  | skip => rfl
  | other => rfl
  | kv k v =>
    cases hc : st.current with
    | none => rfl
    | some cur => exact keys_setKV st.sections cur k v

lemma parse_keys_aux (lines : List String) :
    ∀ st : ParseState, (st.sections.map Prod.fst ++ headersOfLines lines).Nodup →
    (lines.foldl processLine st).sections.map Prod.fst =
      st.sections.map Prod.fst ++ headersOfLines lines := by
  induction lines with
  | nil =>
    intro st h
    simp [headersOfLines]
  | cons raw rest ih =>
    intro st h
    cases hh : headerOpt raw with
    | none =>
      have hkeys := processLine_keys_of_nonheader st raw hh
      have hdr : headersOfLines (raw :: rest) = headersOfLines rest := by
        simp [headersOfLines, List.filterMap_cons, hh]
      rw [hdr] at h ⊢
      rw [List.foldl_cons]
      rw [ih (processLine st raw) (by rw [hkeys]; exact h)]
      rw [hkeys]
    | some n =>
      have hpl := processLine_of_header st raw n hh
      have hdr : headersOfLines (raw :: rest) = n :: headersOfLines rest := by
        simp [headersOfLines, List.filterMap_cons, hh]
      rw [hdr] at h ⊢
      have hn : n ∉ st.sections.map Prod.fst := by
        intro hmem
        exact (List.nodup_append.mp h).2.2 hmem (List.mem_cons_self n _)
      have hkeys1 : (listSet st.sections n []).map Prod.fst =
          st.sections.map Prod.fst ++ [n] :=
        keys_listSet_of_not_mem _ n [] hn
      rw [List.foldl_cons, hpl]
      have hnodup2 : ((listSet st.sections n []).map Prod.fst ++
          headersOfLines rest).Nodup := by
        rw [hkeys1, List.append_assoc]
        simpa using h
      have hih := ih ⟨listSet st.sections n [], some n⟩ hnodup2
      rw [hih]
      show (listSet st.sections n []).map Prod.fst ++ headersOfLines rest =
        st.sections.map Prod.fst ++ n :: headersOfLines rest
      rw [hkeys1, List.append_assoc]
      rfl

lemma getSection_listSet {α : Type} (s : List (String × α)) (m n : String) (v : α) :
    getSection (listSet s m v) n = if n = m then some v else getSection s n := by
  induction s with
  | nil =>
    unfold listSet
    by_cases h : n = m
    · simp [getSection, h]
    · have h2 : ¬(m = n) := fun e => h e.symm
      simp [getSection, h, h2]
  | cons p rest ih =>
    obtain ⟨k', v'⟩ := p
    unfold listSet
    by_cases hkm : k' = m
    · subst hkm
      simp only [if_pos rfl]
      by_cases hnk : n = k'
      · simp [getSection, hnk]
      · have h2 : ¬(k' = n) := fun e => hnk e.symm
        simp [getSection, hnk, h2]
    · simp only [if_neg hkm]
      by_cases hnk : n = k'
      · have h2 : k' = n := hnk.symm
        have hnm : ¬(n = m) := fun e => hkm (hnk.symm.trans e)
        simp [getSection, h2, hnm]
      · have h2 : ¬(k' = n) := fun e => hnk e.symm
        simp [getSection, h2, ih]

lemma getSection_setKV (s : List (String × List (String × String)))
    (cur k v n : String) :
    getSection (setKV s cur k v) n =
      if n = cur then (getSection s n).map (fun kvs => listSet kvs k v)
      else getSection s n := by
  induction s with
  | nil =>
    unfold setKV
    by_cases h : n = cur <;> simp [getSection, h]
  | cons p rest ih =>
    obtain ⟨k', kvs⟩ := p
    unfold setKV
    by_cases hkc : k' = cur
    · subst hkc
      simp only [if_pos rfl]
      by_cases hnk : n = k'
      · simp [getSection, hnk]
      · have h2 : ¬(k' = n) := fun e => hnk e.symm
        simp [getSection, hnk, h2]
    · simp only [if_neg hkc]
      by_cases hnk : n = k'
      · have h2 : k' = n := hnk.symm
        have hnc : ¬(n = cur) := fun e => hkc (hnk.symm.trans e)
        simp [getSection, h2, hnc]
      · have h2 : ¬(k' = n) := fun e => hnk e.symm
        simp [getSection, h2, ih]

lemma processLine_pair (n : String) (s t : ParseState) (raw : String)
    (hc : s.current = t.current)
    (hg : getSection s.sections n = getSection t.sections n) :
    (processLine s raw).current = (processLine t raw).current ∧
    getSection (processLine s raw).sections n =
      getSection (processLine t raw).sections n := by
  unfold processLine
  cases hk : lineKind raw with
  | skip => exact ⟨hc, hg⟩
  | other => exact ⟨hc, hg⟩
  | header m =>
    refine ⟨rfl, ?_⟩
    show getSection (listSet s.sections m []) n = getSection (listSet t.sections m []) n
    rw [getSection_listSet, getSection_listSet, hg]
  | kv k v =>
    rw [hc]
    cases hcur : t.current with
    | none => exact ⟨hc, hg⟩
    | some cur =>
      refine ⟨rfl, ?_⟩
      show getSection (setKV s.sections cur k v) n =
        getSection (setKV t.sections cur k v) n
      rw [getSection_setKV, getSection_setKV, hg]

lemma foldl_pair (n : String) (lines : List String) :
    ∀ s t : ParseState, s.current = t.current →
    getSection s.sections n = getSection t.sections n →
    (lines.foldl processLine s).current = (lines.foldl processLine t).current ∧
    getSection (lines.foldl processLine s).sections n =
      getSection (lines.foldl processLine t).sections n := by
  induction lines with
  | nil =>
    intro s t hc hg
    exact ⟨hc, hg⟩
  | cons raw rest ih =>
    intro s t hc hg
    have hstep := processLine_pair n s t raw hc hg
    simpa [List.foldl_cons] using ih _ _ hstep.1 hstep.2

/- ===== Claim theorems ===== -/

/-- C1: on the scenario configuration text, the parser returns exactly the
sections remote1 (type drive) and remote2 (type s3, bucket mybucket) in that
order, and auto-generation over those sections with no extra buckets
requested yields exactly the record remote1: at X: followed by
remote2:mybucket at W:. -/
theorem c1_scenario_parse_and_autogen :
    parse_conf_sections "[remote1]\ntype = drive\n\n[remote2]\ntype = s3\nbucket = mybucket\n" =
      [("remote1", [("type", "drive")]), ("remote2", [("type", "s3"), ("bucket", "mybucket")])] ∧
    auto_generate_mappings [] true
      (parse_conf_sections "[remote1]\ntype = drive\n\n[remote2]\ntype = s3\nbucket = mybucket\n")
      (fun _ => false) (fun _ => none) =
      [⟨"remote1:", "remote1", "X:", false⟩,
       ⟨"remote2:mybucket", "remote2-mybucket", "W:", false⟩] := by
  decide

/-- C2 counterexample: the claim says an entry is selected for stopping if
and only if its mapping key ends with the target, and that no other entry
is stopped or removed.  The tracked entry keyed X: arrow Y: does not end
with the target X:, yet a stop of X: removes it, because the source also
matches on substring containment. -/
theorem c2_stop_match_counterexample :
    (unmount_single true "X:" true .ok .ok [⟨"X: -> Y:", some 1, 0, false, false⟩]).1 = [] ∧
    pyEndsWith "X: -> Y:" "X:" = false := by
  decide

/-- C2 amended: a stop of a target selects the first tracked entry whose
mapping key ends with arrow-space-target or contains the target anywhere as
a substring; entries matching neither condition are never removed, and the
selected entry is removed exactly when it is process-owned or the caller
confirms the external stop. -/
theorem c2_stop_match_amended (isW : Bool) (drive : String) (confirm : Bool)
    (tOut eOut : StopOutcome) (st : List TM) :
    (∀ e ∈ st, mountMatches drive e = false →
      e ∈ (unmount_single isW drive confirm tOut eOut st).1) ∧
    (∀ pre e post, st = pre ++ e :: post →
      (∀ x ∈ pre, mountMatches drive x = false) → mountMatches drive e = true →
      drive ≠ "" →
      (unmount_single isW drive confirm tOut eOut st).1 =
        if e.pid.isSome || confirm then pre ++ post else st) := by
  constructor
  · intro e he hm
    unfold unmount_single
    by_cases hd : drive = ""
    · simpa [hd] using he
    · simp only [hd, if_false]
      exact unmountLoop_keeps_nonmatching isW drive confirm tOut eOut st e he hm
  · intro pre e post hst hpre he hd
    subst hst
    unfold unmount_single
    simp only [hd, if_false]
    exact unmountLoop_removes_first isW drive confirm tOut eOut pre e post hpre he

/-- C2 witness: instantiating the amended theorem on a one-entry list
whose key ends with the target. -/
theorem c2_stop_match_witness :
    (unmount_single false "Q:" true .ok .ok [⟨"a: -> Q:", some 2, 0, false, false⟩]).1 = [] := by
  have h := (c2_stop_match_amended false "Q:" true .ok .ok
      [⟨"a: -> Q:", some 2, 0, false, false⟩]).2
      [] ⟨"a: -> Q:", some 2, 0, false, false⟩ [] rfl (by simp) (by decide) (by decide)
  simpa using h

/-- C4: with a resolved rclone path, starting remote r on target d hands
the spawner exactly the vector rclone mount r d --config path
--vfs-cache-mode writes, and on spawn success appends exactly one tracked
entry keyed r space arrow space d. -/
theorem c4_start_cmd_and_entry (rp : String) (conf : Option String)
    (spawn : List String → Except String Nat) (now : Nat)
    (remote drive : String) (st : List TM) (hremote : remote ≠ "") :
    (start_detached_mount (some rp) conf spawn now remote drive st).2 =
      some [rp, "mount", remote, drive, "--config", conf.getD "",
            "--vfs-cache-mode", "writes"] ∧
    (∀ pid, spawn (startCmd rp conf remote drive) = .ok pid →
      (start_detached_mount (some rp) conf spawn now remote drive st).1 =
        st ++ [⟨remote ++ " -> " ++ drive, some pid, now, false, false⟩]) := by
  constructor
  · cases hs : spawn (startCmd rp conf remote drive) with
    | error e =>
      simp only [start_detached_mount]
      rw [show [rp, "mount", remote, drive, "--config", conf.getD "",
            "--vfs-cache-mode", "writes"] = startCmd rp conf remote drive from rfl, hs]
    | ok pid =>
      simp only [start_detached_mount]
      rw [show [rp, "mount", remote, drive, "--config", conf.getD "",
            "--vfs-cache-mode", "writes"] = startCmd rp conf remote drive from rfl, hs]
  · intro pid hspawn
    simp only [start_detached_mount]
    rw [hspawn]

/-- C4 witness: a concrete spawn success. -/
theorem c4_start_cmd_witness :
    (start_detached_mount (some "rclone") (some "c.conf") (fun _ => Except.ok 7) 0
        "r:" "X:" []).2 =
      some ["rclone", "mount", "r:", "X:", "--config", "c.conf",
            "--vfs-cache-mode", "writes"] ∧
    (start_detached_mount (some "rclone") (some "c.conf") (fun _ => Except.ok 7) 0
        "r:" "X:" []).1 = [⟨"r: -> X:", some 7, 0, false, false⟩] := by
  have h := c4_start_cmd_and_entry "rclone" (some "c.conf") (fun _ => Except.ok 7) 0
      "r:" "X:" [] (by decide)
  exact ⟨h.1, by simpa using h.2 7 rfl⟩

/-- C5: a confirmed stop of a detection-only tracked entry (no owning
process handle) removes the entry from the tracked list whatever the
platform unmount outcome was: success, failure, or a raised and caught
error. -/
theorem c5_detection_only_stop_removes (isW : Bool) (drive : String)
    (tOut eOut : StopOutcome) (pre : List TM) (e : TM) (post : List TM)
    (hd : drive ≠ "") (hpre : ∀ x ∈ pre, mountMatches drive x = false)
    (he : mountMatches drive e = true) (hpid : e.pid = none) :
    (unmount_single isW drive true tOut eOut (pre ++ e :: post)).1 = pre ++ post := by
  unfold unmount_single
  simp only [hd, if_false]
  rw [unmountLoop_removes_first isW drive true tOut eOut pre e post hpre he]
  simp [hpid]

/-- C5 witness: a raised unmount error still removes the detected entry. -/
theorem c5_detection_only_stop_witness :
    (unmount_single false "Z:" true .ok .raised [⟨"ext: -> Z:", none, 0, true, false⟩]).1 = [] := by
  have h := c5_detection_only_stop_removes false "Z:" .ok .raised
      [] ⟨"ext: -> Z:", none, 0, true, false⟩ [] (by decide) (by simp) (by decide) rfl
  simpa using h

/-- C7: the parser is a total function with no failure mode: the empty text
yields the empty section dict; blank and comment lines leave the loop state
unchanged; a malformed line (no equals sign) inside a section leaves it
unchanged; and a key/value line seen before any section header is ignored. -/
theorem c7_parser_total_and_skips :
    parse_conf_sections "" = [] ∧
    (∀ (st : ParseState) (raw : String), lineKind raw = .skip → processLine st raw = st) ∧
    (∀ (st : ParseState) (raw : String), lineKind raw = .other → processLine st raw = st) ∧
    (∀ (sections : List (String × List (String × String))) (raw k v : String),
      lineKind raw = .kv k v → processLine ⟨sections, none⟩ raw = ⟨sections, none⟩) := by
  refine ⟨by decide, ?_, ?_, ?_⟩
  · intro st raw h
    unfold processLine
    rw [h]
  · intro st raw h
    unfold processLine
    rw [h]
  · intro sections raw k v h
    unfold processLine
    rw [h]

/-- C7 witness: concrete instances of each skipping behaviour. -/
theorem c7_parser_total_witness :
    processLine ⟨[("a", [])], some "a"⟩ "# note" = ⟨[("a", [])], some "a"⟩ ∧
    processLine ⟨[("a", [])], some "a"⟩ "garbage" = ⟨[("a", [])], some "a"⟩ ∧
    processLine ⟨[], none⟩ "early = value" = ⟨[], none⟩ := by
  refine ⟨?_, ?_, ?_⟩
  · exact c7_parser_total_and_skips.2.1 ⟨[("a", [])], some "a"⟩ "# note" (by decide)
  · exact c7_parser_total_and_skips.2.2.1 ⟨[("a", [])], some "a"⟩ "garbage" (by decide)
  · exact c7_parser_total_and_skips.2.2.2 [] "early = value" "early" "value" (by decide)

/-- C8 counterexample: the claim asserts that the cyclic allocator takes
every letter in B..Z to the previous letter and A to Z; but the allocator
inlined in the preview build steps the codepoint of X (88, a letter in
B..Z) up to Y (89), not down to W (87), takes A (65) to B (66), not to Z,
and from X allocates X, Y, Z, then wraps to A. -/
theorem c8_allocator_counterexample :
    ui_next_drive_ord 88 = 89 ∧
    ui_next_drive_ord 88 ≠ 88 - 1 ∧
    ui_next_drive_ord 65 = 66 ∧
    (List.range 4).map (fun i => Char.ofNat (Nat.iterate ui_next_drive_ord i 88)) =
      "XYZA".data := by
  decide

/-- C8 amended: the two cited builds disagree.  The allocator of the main
build, next_drive_ord, descends: every codepoint from B to Z steps to the
previous letter, A wraps to Z, and iterating from X yields X, W, V and so
on down to A and then Z.  The allocator inlined in the preview build,
ui_next_drive_ord, instead ascends: every codepoint from A to Y steps to
the next letter, Z wraps to A, and iterating from X yields X, Y, Z, A. -/
theorem c8_allocator_amended :
    ((∀ n, 66 ≤ n → n ≤ 90 → next_drive_ord n = n - 1) ∧
     next_drive_ord 65 = 90 ∧
     (List.range 25).map (fun i => Char.ofNat (Nat.iterate next_drive_ord i 88)) =
       "XWVUTSRQPONMLKJIHGFEDCBAZ".data) ∧
    ((∀ n, 65 ≤ n → n ≤ 89 → ui_next_drive_ord n = n + 1) ∧
     ui_next_drive_ord 90 = 65 ∧
     (List.range 4).map (fun i => Char.ofNat (Nat.iterate ui_next_drive_ord i 88)) =
       "XYZA".data) := by
  refine ⟨⟨?_, by decide, by decide⟩, ⟨?_, by decide, by decide⟩⟩
  · intro n h1 h2
    unfold next_drive_ord
    have h3 : ¬(n - 1 < 65) := by omega
    simp [h3]
  · intro n h1 h2
    unfold ui_next_drive_ord
    have h3 : ¬(n + 1 > 90) := by omega
    simp [h3]

/-- C8 witness: the main allocator steps from X down to W while the
preview allocator steps from X up to Y. -/
theorem c8_allocator_witness :
    next_drive_ord 88 = 87 ∧ ui_next_drive_ord 88 = 89 := by
  constructor
  · simpa using c8_allocator_amended.1.1 88 (by decide) (by decide)
  · simpa using c8_allocator_amended.2.1 88 (by decide) (by decide)

/-- C9 counterexample: the claim says the sanitized label is exactly the
kept characters of the original label; but a label with no kept characters
falls back to the literal label mapping, so the created file name differs
from the claimed one. -/
theorem c9_startup_name_counterexample :
    startupFileName true "!!!" = "EZMount_mapping.cmd" ∧
    claimStartupFileName true "!!!" = "EZMount_.cmd" ∧
    startupFileName true "!!!" ≠ claimStartupFileName true "!!!" := by
  decide

/-- C9 amended: the artifact name is the fixed prefix, then the kept
characters of the label (alphanumeric, hyphen, underscore, in order),
except that an empty filtered result is replaced by the fallback label
mapping, then the platform extension. -/
theorem c9_startup_name_amended (isW : Bool) (label : String) :
    startupFileName isW label =
      STARTUP_PREFIX ++
        (if sanitizeChars label = "" then "mapping" else sanitizeChars label) ++
        (if isW then ".cmd" else ".desktop") := by
  unfold startupFileName safeLabel
  rw [pyStrip_sanitizeChars]

/-- C3: the periodic reconciliation scan is idempotent.  For every mapping
list, startup manifest, liveness oracle and tracked-mount list, a second
scan with unchanged liveness returns exactly the tracked list the first
scan produced: it adds no entry and removes no entry (the timestamp the
second pass would stamp on new entries is arbitrary). -/
theorem c3_scan_idempotent (maps : List MappingRec) (log : List StartupEntry)
    (live : String → Bool) (n1 n2 : Nat) (st : List TM) :
    scan_for_external_mounts maps log live n2 (scan_for_external_mounts maps log live n1 st) =
      scan_for_external_mounts maps log live n1 st := by
  have hHas : ∀ mt ∈ detectedNow maps log live,
      (scan_for_external_mounts maps log live n1 st).any
        (fun am => am.mapping == mt) = true := by
    intro mt hmt
    exact (hasMT_any _ mt).mpr (scan_has_detectedNow maps log live n1 st mt hmt)
  have hA : (detectFold n2 false (maps.map (mapEmit live))
      (scan_for_external_mounts maps log live n1 st, [])).1 =
      scan_for_external_mounts maps log live n1 st := by
    refine detectFold_fst_id n2 false _ _ ?_
    intro mt hm
    exact hHas mt (List.mem_append_left _ hm)
  have hB : (detectFold n2 true (log.map (logEmit live))
      (detectFold n2 false (maps.map (mapEmit live))
        (scan_for_external_mounts maps log live n1 st, []))).1 =
      scan_for_external_mounts maps log live n1 st := by
    rw [show (detectFold n2 true (log.map (logEmit live))
        (detectFold n2 false (maps.map (mapEmit live))
          (scan_for_external_mounts maps log live n1 st, []))).1 =
        (detectFold n2 true (log.map (logEmit live))
          (detectFold n2 false (maps.map (mapEmit live))
            (scan_for_external_mounts maps log live n1 st, []))).1 from rfl]
    have h := detectFold_fst_id n2 true (log.map (logEmit live))
      (detectFold n2 false (maps.map (mapEmit live))
        (scan_for_external_mounts maps log live n1 st, [])) ?_
    · rw [h, hA]
    · intro mt hm
      rw [hA]
      exact hHas mt (List.mem_append_right _ hm)
  rw [scan_unfold maps log live n2, hB]
  refine List.filter_eq_self.mpr ?_
  intro e he
  by_cases hd : e.detected = true
  · have hmem := scan_detected_in_dnow maps log live n1 st e he hd
    have hc := contains_of_mem _ _ hmem
    rw [hd, hc]
    simp
  · have hd' : e.detected = false := by simpa using hd
    rw [hd']
    simp

/-- C10: the reconciliation scan never removes or mutates a tracked entry
this process launched itself: every entry with an owning process handle and
a false detected flag that is tracked before the scan is still tracked
after it, and any entry the removal pass drops has its detected flag true
and a mapping text absent from the current detected set. -/
theorem c10_scan_preserves_owned (maps : List MappingRec) (log : List StartupEntry)
    (live : String → Bool) (now : Nat) (st : List TM) :
    (∀ e ∈ st, e.pid.isSome = true → e.detected = false →
      e ∈ scan_for_external_mounts maps log live now st) ∧
    (∀ e ∈ st, e ∉ scan_for_external_mounts maps log live now st →
      e.detected = true ∧ e.mapping ∉ detectedNow maps log live) := by
  have hdrop : ∀ e ∈ st, e ∉ scan_for_external_mounts maps log live now st →
      e.detected = true ∧ e.mapping ∉ detectedNow maps log live := by
    intro e he hnot
    rw [scan_unfold] at hnot
    have heb : e ∈ (detectFold now true (log.map (logEmit live))
        (detectFold now false (maps.map (mapEmit live)) (st, []))).1 :=
      detectFold_fst_mem now true _ _ e (detectFold_fst_mem now false _ (st, []) e he)
    have hpred : ¬((!(e.detected &&
        !((detectedNow maps log live).contains e.mapping))) = true) :=
      fun hp => hnot (List.mem_filter.mpr ⟨heb, hp⟩)
    have hp' : (e.detected && !((detectedNow maps log live).contains e.mapping)) = true := by
      cases hval : (e.detected && !((detectedNow maps log live).contains e.mapping)) with
      | true => rfl
      | false => exact absurd (by rw [hval]; rfl) hpred
    have hand : e.detected = true ∧
        (!((detectedNow maps log live).contains e.mapping)) = true := by
      simpa using hp'
    have hdet := hand.1
    have hcon : ((detectedNow maps log live).contains e.mapping) = false := by
      simpa using hand.2
    refine ⟨hdet, fun hmem => ?_⟩
    rw [contains_of_mem _ _ hmem] at hcon
    cases hcon
  refine ⟨?_, hdrop⟩
  intro e he hpid hdet
  by_contra hnot
  have := (hdrop e he hnot).1
  rw [hdet] at this
  cases this

/-- C10 witness: a process-owned, non-detected entry survives a scan with
nothing live. -/
theorem c10_scan_preserves_owned_witness :
    (⟨"r: -> X:", some 5, 0, false, false⟩ : TM) ∈
      scan_for_external_mounts [] [] (fun _ => false) 0
        [⟨"r: -> X:", some 5, 0, false, false⟩] := by
  exact (c10_scan_preserves_owned [] [] (fun _ => false) 0
      [⟨"r: -> X:", some 5, 0, false, false⟩]).1
    ⟨"r: -> X:", some 5, 0, false, false⟩ (List.mem_singleton.mpr rfl) rfl rfl

/-- C6: for every text whose bracketed headers are pairwise distinct, the
parser returns exactly those sections, keyed by header name in first-seen
order; and when a header for n reappears (its last occurrence given by the
line decomposition), the resulting section for n holds exactly the
key/value pairs the parser collects after that last occurrence, all pairs
from earlier occurrences being discarded. -/
theorem c6_section_order_and_dup_headers :
    (∀ text : String, (headersOfLines (pySplitlines text)).Nodup →
      (parse_conf_sections text).map Prod.fst = headersOfLines (pySplitlines text)) ∧
    (∀ (text n : String) (pre : List String) (hline : String) (post : List String),
      pySplitlines text = pre ++ hline :: post →
      headerOpt hline = some n →
      n ∈ headersOfLines pre →
      n ∉ headersOfLines post →
      getSection (parse_conf_sections text) n =
        getSection (parseTail n post).sections n) := by
  constructor
  · intro text hnd
    have h := parse_keys_aux (pySplitlines text) ⟨[], none⟩ (by simpa using hnd)
    simpa [parse_conf_sections, parseLines] using h
  · intro text n pre hline post hsplit hh hpre hpost
    unfold parse_conf_sections parseLines
    rw [hsplit, List.foldl_append, List.foldl_cons,
      processLine_of_header _ hline n hh]
    unfold parseTail
    refine (foldl_pair n post
      ⟨listSet (List.foldl processLine ⟨[], none⟩ pre).sections n [], some n⟩
      ⟨[(n, [])], some n⟩ rfl ?_).2
    show getSection (listSet (List.foldl processLine ⟨[], none⟩ pre).sections n []) n =
      getSection [(n, [])] n
    rw [getSection_listSet]
    simp [getSection]

/-- C6 witness: distinct headers in order, and a duplicated header keeping
only the pairs after its last occurrence. -/
theorem c6_section_order_witness :
    (parse_conf_sections "[a]\nx = 1\n[b]\ny = 2").map Prod.fst = ["a", "b"] ∧
    getSection (parse_conf_sections "[a]\nx = 1\n[a]\ny = 2") "a" =
      getSection (parseTail "a" ["y = 2"]).sections "a" := by
  constructor
  · have h1 := c6_section_order_and_dup_headers.1 "[a]\nx = 1\n[b]\ny = 2" (by decide)
    rw [show headersOfLines (pySplitlines "[a]\nx = 1\n[b]\ny = 2") = ["a", "b"]
      from by decide] at h1
    exact h1
  · exact c6_section_order_and_dup_headers.2 "[a]\nx = 1\n[a]\ny = 2" "a"
      ["[a]", "x = 1"] "[a]" ["y = 2"] (by decide) (by decide) (by decide) (by decide)

end EZMount
